import Mathlib

/- Shallow embedding of the JKL-Game editing engine
   (src/components/GameCanvas.tsx class GameEngine, src/constants.ts,
   src/types.ts).  Numbers are modelled as exact rationals.  Cosmetic
   state (particles, character mood, the audio graph) is omitted, and the
   outbound callbacks (onScoreUpdate, onPenaltyUpdate, onFinalScoreUpdate,
   onGameOver, onWin) are modelled as an emitted event list.  The wall
   clock performance.now() / Date.now() is passed in as an explicit
   `now` argument. -/

namespace JKL

/-- src/components/GameCanvas.tsx: 1 "Frame" = 6 pixels. -/
def FRAME_PIXELS : ℚ := 6

/-- src/constants.ts -/
def SEGMENT_MIN_WIDTH : ℚ := 100

def SEGMENT_MAX_WIDTH : ℚ := 300

def MAX_SPEED : ℚ := 32

def WIN_PIXELS : ℚ := 1200

def COLOR_RED : String := "#ef4444"

def COLOR_BLUE : String := "#3b82f6"

def COLOR_GREEN : String := "#22c55e"

def COLOR_YELLOW : String := "#eab308"

def COLOR_PURPLE : String := "#a855f7"

def COLOR_ORANGE : String := "#f97316"

/-- Object.values(COLORS), in declaration order. -/
def AVAILABLE_COLORS : List String :=
  [COLOR_RED, COLOR_BLUE, COLOR_GREEN, COLOR_YELLOW, COLOR_PURPLE, COLOR_ORANGE]

/-- JavaScript Math.round: round half toward positive infinity. -/
def jsRound (q : ℚ) : ℤ := ⌊q + 1/2⌋

/-- src/types.ts TimelineSegment -/
structure TimelineSegment where
  id : String
  x : ℚ
  width : ℚ
  color : String
deriving DecidableEq, Repr

/-- src/types.ts SequenceClip -/
structure SequenceClip where
  id : String
  width : ℚ
  color : String
deriving DecidableEq, Repr

/-- src/types.ts GameMode -/
inductive GameMode where
  | STANDARD
  | CAT_MODE
deriving DecidableEq, Repr

/-- The keys the engine reacts to (constants KEY_J .. KEY_PERIOD). -/
inductive Key where
  | j
  | k
  | l
  | i
  | o
  | period
deriving DecidableEq, Repr

/-- Outbound callback invocations, in invocation order. -/
inductive GEvent where
  | scoreUpdate : ℚ → GEvent
  | penaltyUpdate : ℕ → GEvent
  | finalScoreUpdate : ℤ → GEvent
  | gameOver : GEvent
  | win : GEvent
deriving DecidableEq, Repr

/-- The GameEngine mutable fields that carry game logic.  inputTimestamps
    and inputStartOffsets are records keyed by KEY_J / KEY_L whose entries
    are always written together (handleKeyDown), so each is modelled as one
    optional (timestamp, offset-at-press) pair per key. -/
structure EngineState where
  sourceSegments : List TimelineSegment
  sequenceClips : List SequenceClip
  gameMode : GameMode
  conveyorOffset : ℚ
  markIn : Option ℚ
  markOut : Option ℚ
  currentSpeed : ℚ
  startTime : ℚ
  isHoldingK : Bool
  isHoldingJ : Bool
  isHoldingL : Bool
  inputJ : Option (ℚ × ℚ)
  inputL : Option (ℚ × ℚ)
  targetColor : String
  penaltyCount : ℕ
  width : ℚ
deriving DecidableEq, Repr

/-- GameEngine.getTapeXAtPlayhead -/
def getTapeXAtPlayhead (s : EngineState) : ℚ :=
  s.width / 2 - s.conveyorOffset

/-- GameEngine.snapToFrame -/
def snapToFrame (s : EngineState) : EngineState :=
  let currentTapeX := getTapeXAtPlayhead s
  let snappedTapeX : ℚ := (jsRound (currentTapeX / FRAME_PIXELS) : ℚ) * FRAME_PIXELS
  { s with conveyorOffset := s.width / 2 - snappedTapeX }

/-- GameEngine.registerBadHabit (particle/mood effects omitted). -/
def registerBadHabit (s : EngineState) : EngineState × List GEvent :=
  ({ s with penaltyCount := s.penaltyCount + 1 },
   [GEvent.penaltyUpdate (s.penaltyCount + 1)])

/-- GameEngine.calculateFinalScore -/
def calculateFinalScore (s : EngineState) (now : ℚ) : ℤ :=
  let timeElapsed := (now - s.startTime) / 1000
  let score : ℚ := 10000 - timeElapsed * 10 - (s.penaltyCount : ℚ) * 50
  max 0 ⌊score⌋

/-- GameEngine.performExtract: `this.sourceSegments.filter(s => s.x < end
    && (s.x + s.width) > start)`. -/
def overlapSegments (segs : List TimelineSegment) (start end_ : ℚ) :
    List TimelineSegment :=
  segs.filter fun s => decide (s.x < end_) && decide (start < s.x + s.width)

/-- The mode-specific validation inside GameEngine.performExtract. -/
def extractSuccess (mode : GameMode) (target : String) (start end_ : ℚ)
    (affected : List TimelineSegment) : Bool :=
  match mode with
  | GameMode.CAT_MODE =>
    let ALLOWED_SILENCE_PX : ℚ := 10 * FRAME_PIXELS
    match affected.find? (fun s => s.color == target) with
    | none => false
    | some targetMeow =>
      let caughtStart : Bool := decide (start ≤ targetMeow.x + 1/10)
      let caughtEnd : Bool := decide (end_ ≥ targetMeow.x + targetMeow.width - 1/10)
      if caughtStart && caughtEnd then
        let silenceBefore := max 0 (targetMeow.x - start)
        let silenceAfter := max 0 (end_ - (targetMeow.x + targetMeow.width))
        if silenceBefore > ALLOWED_SILENCE_PX ∨ silenceAfter > ALLOWED_SILENCE_PX then
          false
        else
          true
      else
        false
  | GameMode.STANDARD =>
    let correctColorLength : ℚ := (affected.map fun seg =>
      let segStart := max start seg.x
      let segEnd := min end_ (seg.x + seg.width)
      let len := segEnd - segStart
      if seg.color == target then len else 0).sum
    decide (correctColorLength / (end_ - start) ≥ 95 / 100)

/-- First forEach of the ripple delete in GameEngine.performExtract:
    segments at or before `start`. -/
def ripplePass1 (start : ℚ) (segs : List TimelineSegment) : List TimelineSegment :=
  segs.filterMap fun seg =>
    if seg.x + seg.width ≤ start then some seg
    else if seg.x < start then some { seg with width := start - seg.x }
    else none

/-- Second forEach of the ripple delete in GameEngine.performExtract:
    segments at or after `end`. -/
def ripplePass2 (start end_ : ℚ) (segs : List TimelineSegment) : List TimelineSegment :=
  segs.filterMap fun seg =>
    if end_ ≤ seg.x then some { seg with x := seg.x - (end_ - start) }
    else if end_ < seg.x + seg.width then
      some { seg with x := end_ - (end_ - start), width := (seg.x + seg.width) - end_ }
    else none

/-- The whole "Ripple Delete" block of GameEngine.performExtract. -/
def rippleDelete (segs : List TimelineSegment) (start end_ : ℚ) :
    List TimelineSegment :=
  ripplePass1 start segs ++ ripplePass2 start end_ segs

/-- `this.sequenceClips.reduce((acc, clip) => acc + clip.width, 0)`. -/
def totalClipWidth (clips : List SequenceClip) : ℚ :=
  (clips.map fun c => c.width).sum

/-- Sum of segment widths of a tape. -/
def totalWidth (segs : List TimelineSegment) : ℚ :=
  (segs.map fun s => s.width).sum

/-- GameEngine.performExtract.  The new clip id is built from Date.now()
    in the source; the id string plays no role in any logic. -/
def performExtract (s : EngineState) (now : ℚ) : EngineState × List GEvent :=
  match s.markIn, s.markOut with
  | some start, some end_ =>
    let duration := end_ - start
    if duration ≤ 0 then (s, [])
    else
      let affected := overlapSegments s.sourceSegments start end_
      if affected = [] then (s, [])
      else if extractSuccess s.gameMode s.targetColor start end_ affected then
        let clip : SequenceClip :=
          { id := "clip_" ++ toString now.num, width := duration, color := s.targetColor }
        let clips := s.sequenceClips ++ [clip]
        let totalPixels := totalClipWidth clips
        if totalPixels ≥ WIN_PIXELS then
          ({ s with sequenceClips := clips },
           [GEvent.scoreUpdate totalPixels,
            GEvent.finalScoreUpdate (calculateFinalScore s now),
            GEvent.win])
        else
          let s1 := { s with
            sequenceClips := clips,
            sourceSegments := rippleDelete s.sourceSegments start end_,
            conveyorOffset := s.width / 2 - start,
            markIn := (none : Option ℚ),
            markOut := (none : Option ℚ),
            currentSpeed := 0 }
          (snapToFrame s1, [GEvent.scoreUpdate totalPixels])
      else
        (s, [GEvent.gameOver])
  | _, _ => (s, [])

/-- GameEngine.handleKeyDown (particle effects omitted). -/
def handleKeyDown (s : EngineState) (key : Key) (now : ℚ) :
    EngineState × List GEvent :=
  match key with
  | Key.k =>
    if s.isHoldingK then (s, [])
    else (snapToFrame { s with isHoldingK := true, currentSpeed := 0 }, [])
  | Key.l =>
    if s.isHoldingL then (s, [])
    else
      let s1 := { s with isHoldingL := true, inputL := some (now, s.conveyorOffset) }
      if s.isHoldingK then ({ s1 with currentSpeed := 0.2 }, [])
      else if s.currentSpeed < 0 then ({ s1 with currentSpeed := 0 }, [])
      else if s.currentSpeed = 0 then ({ s1 with currentSpeed := 1 }, [])
      else ({ s1 with currentSpeed := min (s.currentSpeed * 2) MAX_SPEED }, [])
  | Key.j =>
    if s.isHoldingJ then (s, [])
    else
      let s1 := { s with isHoldingJ := true, inputJ := some (now, s.conveyorOffset) }
      if s.isHoldingK then ({ s1 with currentSpeed := -0.2 }, [])
      else if s.currentSpeed > 0 then ({ s1 with currentSpeed := 0 }, [])
      else if s.currentSpeed = 0 then ({ s1 with currentSpeed := -1 }, [])
      else ({ s1 with currentSpeed := max (s.currentSpeed * 2) (-MAX_SPEED) }, [])
  | Key.i =>
    let tapeX := getTapeXAtPlayhead s
    let newMarkIn : ℚ := (jsRound (tapeX / FRAME_PIXELS) : ℚ) * FRAME_PIXELS
    let newMarkOut : Option ℚ :=
      match s.markOut with
      | some b => if b < newMarkIn then none else some b
      | none => none
    ({ s with markIn := some newMarkIn, markOut := newMarkOut }, [])
  | Key.o =>
    let tapeX := getTapeXAtPlayhead s
    let snappedX : ℚ := (jsRound (tapeX / FRAME_PIXELS) : ℚ) * FRAME_PIXELS
    match s.markIn with
    | none => ({ s with markOut := some snappedX }, [])
    | some a =>
      if snappedX > a then ({ s with markOut := some snappedX }, [])
      else (s, [])
  | Key.period => performExtract s now

/-- GameEngine.handleKeyUp.  A key-up for a key whose timestamp record was
    never written compares `now - undefined < 200` in the source, which is
    false (NaN), so it takes the snap-to-frame branch; that is the `none`
    case here. -/
def handleKeyUp (s : EngineState) (key : Key) (now : ℚ) :
    EngineState × List GEvent :=
  match key with
  | Key.k => ({ s with isHoldingK := false }, [])
  | Key.l =>
    let s1 := { s with isHoldingL := false }
    if s.isHoldingK then
      let s2 := { s1 with currentSpeed := 0 }
      match s.inputL with
      | some (t, startOffset) =>
        if now - t < 200 then
          let startTapeX := s.width / 2 - startOffset
          let gridTapeX : ℚ := (jsRound (startTapeX / FRAME_PIXELS) : ℚ) * FRAME_PIXELS
          let targetTapeX := gridTapeX + FRAME_PIXELS
          registerBadHabit { s2 with conveyorOffset := s.width / 2 - targetTapeX }
        else (snapToFrame s2, [])
      | none => (snapToFrame s2, [])
    else (s1, [])
  | Key.j =>
    let s1 := { s with isHoldingJ := false }
    if s.isHoldingK then
      let s2 := { s1 with currentSpeed := 0 }
      match s.inputJ with
      | some (t, startOffset) =>
        if now - t < 200 then
          let startTapeX := s.width / 2 - startOffset
          let gridTapeX : ℚ := (jsRound (startTapeX / FRAME_PIXELS) : ℚ) * FRAME_PIXELS
          let targetTapeX := gridTapeX - FRAME_PIXELS
          registerBadHabit { s2 with conveyorOffset := s.width / 2 - targetTapeX }
        else (snapToFrame s2, [])
      | none => (snapToFrame s2, [])
    else (s1, [])
  | _ => (s, [])

/-- GameEngine.generateSourceTape, one loop iteration at index `i` with
    `n` iterations remaining.  Math.random() draws are explicit inputs:
    `wd i` is the width draw for segment `i`; `cd i` is the stream of color
    draws consumed by the do-while retry loop (already indexed into
    AVAILABLE_COLORS), and the loop is the first draw whose exit condition
    `!(i > 0 && color === prev)` holds — `none` models the (probability
    zero) case where the stream never satisfies it. -/
def genSegsAux (wd : ℕ → ℚ) (cd : ℕ → List String) :
    ℕ → ℕ → ℚ → Option String → Option (List TimelineSegment)
  | _, 0, _, _ => some []
  | i, n + 1, currentX, prev =>
    let rawWidth := wd i * (SEGMENT_MAX_WIDTH - SEGMENT_MIN_WIDTH) + SEGMENT_MIN_WIDTH
    let w : ℚ := (jsRound (rawWidth / FRAME_PIXELS) : ℚ) * FRAME_PIXELS
    match (cd i).find? (fun c => !(decide (0 < i) && decide (some c = prev))) with
    | none => none
    | some color =>
      match genSegsAux wd cd (i + 1) n (currentX + w) (some color) with
      | none => none
      | some rest =>
        some ({ id := "seg_" ++ toString i, x := currentX, width := w,
                color := color } :: rest)

/-- GameEngine.generateSourceTape: 200 segments laid out from position 0. -/
def generateSourceTape (wd : ℕ → ℚ) (cd : ℕ → List String) :
    Option (List TimelineSegment) :=
  genSegsAux wd cd 0 200 0 none

/-- A tape tiles the half-open interval starting at `a`: each segment
    starts where announced, has positive width, and the next one starts
    exactly at its end.  This is the spec's contiguity invariant
    (spec section 3 / section 8). -/
def tilesFrom (a : ℚ) : List TimelineSegment → Bool
  | [] => true
  | s :: l => decide (s.x = a) && decide (0 < s.width) && tilesFrom (s.x + s.width) l

/-- Spec-side reading (spec 4.4) of STANDARD coverage: the total length of
    `[a, b)` covered by segments of the target color. -/
def targetCoverage (segs : List TimelineSegment) (target : String) (a b : ℚ) : ℚ :=
  (segs.map fun s =>
    if s.color = target then max 0 (min b (s.x + s.width) - max a s.x) else 0).sum

/-- Spec-side reading of off-target coverage: total length of `[a, b)`
    covered by segments of a different color. -/
def offTargetCoverage (segs : List TimelineSegment) (target : String) (a b : ℚ) : ℚ :=
  (segs.map fun s =>
    if s.color ≠ target then max 0 (min b (s.x + s.width) - max a s.x) else 0).sum

/-- An extraction attempt succeeded exactly when it appended a clip. -/
def ExtractSucceeded (s : EngineState) (now : ℚ) : Prop :=
  (performExtract s now).1.sequenceClips.length = s.sequenceClips.length + 1

/-- The marks invariant as the code maintains it: when both marks are set,
    markOut is at least markIn. -/
def MarksInv (s : EngineState) : Prop :=
  ∀ a b : ℚ, s.markIn = some a → s.markOut = some b → a ≤ b

/-- A sequence of mark events: each event repositions the playhead (the
    transport moves between key presses) and then presses I (true) or O
    (false) at some time. -/
def applyMarkEvents (s : EngineState) (evts : List (ℚ × Bool × ℚ)) : EngineState :=
  evts.foldl (fun st e =>
    (handleKeyDown { st with conveyorOffset := e.1 }
      (if e.2.1 then Key.i else Key.o) e.2.2).1) s

instance (s : EngineState) (now : ℚ) : Decidable (ExtractSucceeded s now) :=
  inferInstanceAs (Decidable (_ = _))

/-- A freshly started engine (GameEngine.start with an empty tape),
    canvas width 800 (CANVAS_WIDTH). -/
def baseState : EngineState :=
  { sourceSegments := []
    sequenceClips := []
    gameMode := GameMode.STANDARD
    conveyorOffset := 0
    markIn := none
    markOut := none
    currentSpeed := 0
    startTime := 0
    isHoldingK := false
    isHoldingJ := false
    isHoldingL := false
    inputJ := none
    inputL := none
    targetColor := COLOR_RED
    penaltyCount := 0
    width := 800 }

/-- The spec's example tape: one RED segment of width 300 with an adjacent
    BLUE segment. -/
def stdTape : List TimelineSegment :=
  [{ id := "seg_0", x := 0, width := 300, color := COLOR_RED },
   { id := "seg_1", x := 300, width := 102, color := COLOR_BLUE }]

/-- STANDARD mode, target RED, marks [0, 300). -/
def stdState : EngineState :=
  { baseState with sourceSegments := stdTape, markIn := some 0, markOut := some 300 }

/-- STANDARD mode, marks [0, 360): 60px of BLUE in the range. -/
def failState : EngineState :=
  { stdState with markOut := some 360 }

/-- Marks [600, 660): past the end of the tape, overlapping nothing. -/
def noOverlapState : EngineState :=
  { stdState with markIn := some 600, markOut := some 660 }

/-- 1000px already accumulated, 3 penalties: the next 300px extraction
    crosses the 1200px win threshold. -/
def winState : EngineState :=
  { stdState with
      sequenceClips := [{ id := "clip_0", width := 1000, color := COLOR_RED }]
      penaltyCount := 3 }

/-- CAT_MODE on the example tape, marks [0, 360): exactly 60px trailing
    silence. -/
def catBoundaryState : EngineState :=
  { stdState with gameMode := GameMode.CAT_MODE, markOut := some 360 }

/-- CAT_MODE on the example tape, marks [0, 367): 67px trailing silence. -/
def catOverState : EngineState :=
  { stdState with gameMode := GameMode.CAT_MODE, markOut := some 367 }

/-- CAT_MODE tape holding two RED segments separated by a 6px BLUE sliver
    (reachable after ripple deletes), marks [0, 162): both RED segments
    overlap the range but the trailing gap past the first one is exactly
    60px. -/
def catTwoMeowState : EngineState :=
  { baseState with
      sourceSegments :=
        [{ id := "seg_0", x := 0, width := 102, color := COLOR_RED },
         { id := "seg_1", x := 102, width := 6, color := COLOR_BLUE },
         { id := "seg_2", x := 108, width := 102, color := COLOR_RED }]
      gameMode := GameMode.CAT_MODE
      markIn := some 0
      markOut := some 162 }

/-- CAT_MODE tape [0,240) BLUE, [240,300) RED with marks [240, 360): the
    marked range extends 60px past the end of the tape and the extraction
    succeeds (60px allowed trailing silence). -/
def ripplePastEndState : EngineState :=
  { baseState with
      sourceSegments :=
        [{ id := "seg_0", x := 0, width := 240, color := COLOR_BLUE },
         { id := "seg_1", x := 240, width := 60, color := COLOR_RED }]
      gameMode := GameMode.CAT_MODE
      markIn := some 240
      markOut := some 360 }

/-- K held with J and L pressed at time 0 with conveyorOffset 100 recorded
    (live offset has since drifted to 97). -/
def tapHoldState : EngineState :=
  { baseState with
      isHoldingK := true
      isHoldingJ := true
      isHoldingL := true
      inputJ := some (0, 100)
      inputL := some (0, 100)
      conveyorOffset := 97 }

/-- One concrete run of the tape generator: every width draw 1/2, color
    draws alternating from a RED-then-BLUE stream. -/
def demoTape : List TimelineSegment :=
  (generateSourceTape (fun _ => 1/2) (fun _ => [COLOR_RED, COLOR_BLUE])).getD []

/-! ### Helper lemmas -/

theorem jsRound_intCast (k : ℤ) : jsRound (k : ℚ) = k := by
  unfold jsRound
  rw [add_comm, Int.floor_add_int]
  norm_num

theorem getTapeX_snap (s : EngineState) :
    getTapeXAtPlayhead (snapToFrame s) =
      (jsRound (getTapeXAtPlayhead s / FRAME_PIXELS) : ℚ) * FRAME_PIXELS := by
  simp only [snapToFrame, getTapeXAtPlayhead]
  ring

/-! ### C9 -/

/-- C9: snapToFrame is idempotent: for every conveyorOffset value, applying
    snapToFrame twice yields the same offset as applying it once, and after
    one application the playhead tape position is an exact multiple of
    FRAME_PIXELS. -/
theorem C9_snapToFrame_idempotent (s : EngineState) :
    snapToFrame (snapToFrame s) = snapToFrame s ∧
    ∃ k : ℤ, getTapeXAtPlayhead (snapToFrame s) = (k : ℚ) * FRAME_PIXELS := by
  refine ⟨?_, jsRound (getTapeXAtPlayhead s / FRAME_PIXELS), getTapeX_snap s⟩
  have hx := getTapeX_snap s
  show ({ snapToFrame s with conveyorOffset :=
    (snapToFrame s).width / 2 -
      (jsRound (getTapeXAtPlayhead (snapToFrame s) / FRAME_PIXELS) : ℚ) * FRAME_PIXELS }
      : EngineState) = snapToFrame s
  rw [hx]
  have h6 : ((jsRound (getTapeXAtPlayhead s / FRAME_PIXELS) : ℚ) * FRAME_PIXELS)
      / FRAME_PIXELS = (jsRound (getTapeXAtPlayhead s / FRAME_PIXELS) : ℚ) := by
    rw [mul_div_assoc]
    norm_num [FRAME_PIXELS]
  rw [h6, jsRound_intCast]
  have : (snapToFrame s).width / 2 -
      (jsRound (getTapeXAtPlayhead s / FRAME_PIXELS) : ℚ) * FRAME_PIXELS =
      (snapToFrame s).conveyorOffset := by
    simp only [snapToFrame]
  rw [this]

/-! ### C10 -/

/-- C10: with both marks set, markOut > markIn, but no source segment
    overlapping [markIn, markOut), performExtract is a silent no-op: the
    entire engine state is unchanged and no callback is invoked. -/
theorem C10_no_overlap_noop (s : EngineState) (now a b : ℚ)
    (h1 : s.markIn = some a) (h2 : s.markOut = some b) (h3 : 0 < b - a)
    (h4 : overlapSegments s.sourceSegments a b = []) :
    performExtract s now = (s, []) := by
  unfold performExtract
  rw [h1, h2]
  simp only [h4, if_neg (not_le.mpr h3), if_pos rfl]
  simp

/-- C10 witness: marks [600, 660) on the example tape overlap nothing. -/
theorem C10_no_overlap_noop_witness :
    performExtract noOverlapState 0 = (noOverlapState, []) :=
  C10_no_overlap_noop noOverlapState 0 600 660 rfl rfl (by norm_num)
    (by norm_num [overlapSegments, noOverlapState, stdState, baseState, stdTape])

/-! ### C7 -/

/-- C7: an extraction attempt with both marks set, positive duration and at
    least one overlapping segment whose validation fails (either mode)
    invokes only the game-over callback and mutates nothing: the state
    (sourceSegments, sequenceClips, marks, conveyorOffset, penaltyCount
    included) is returned unchanged. -/
theorem C7_failure_no_mutation (s : EngineState) (now a b : ℚ)
    (h1 : s.markIn = some a) (h2 : s.markOut = some b) (h3 : 0 < b - a)
    (h4 : overlapSegments s.sourceSegments a b ≠ [])
    (h5 : extractSuccess s.gameMode s.targetColor a b
            (overlapSegments s.sourceSegments a b) = false) :
    performExtract s now = (s, [GEvent.gameOver]) := by
  unfold performExtract
  rw [h1, h2]
  simp only [if_neg (not_le.mpr h3), if_neg h4, h5]
  simp

/-- C7 witness: STANDARD extraction of [0, 360) on the example tape (only
    300 of 360 px are RED) fails and leaves the state untouched. -/
theorem C7_failure_no_mutation_witness :
    performExtract failState 0 = (failState, [GEvent.gameOver]) :=
  C7_failure_no_mutation failState 0 0 360 rfl rfl (by norm_num)
    (by norm_num +decide [overlapSegments, failState, stdState, baseState, stdTape])
    (by norm_num +decide [extractSuccess, overlapSegments, failState, stdState, baseState,
      stdTape, COLOR_RED, COLOR_BLUE])

/-! ### C4 -/

theorem marksInv_handleKeyDown_io (s : EngineState) (key : Key) (now : ℚ)
    (hk : key = Key.i ∨ key = Key.o) (h : MarksInv s) :
    MarksInv (handleKeyDown s key now).1 := by
  rcases hk with hk | hk <;> subst hk
  · intro a b ha hb
    simp only [handleKeyDown] at ha hb
    rcases hmo : s.markOut with _ | b0
    · rw [hmo] at hb
      simp at hb
    · rw [hmo] at hb
      dsimp only at hb
      by_cases hlt : b0 < (jsRound (getTapeXAtPlayhead s / FRAME_PIXELS) : ℚ) * FRAME_PIXELS
      · rw [if_pos hlt] at hb
        simp at hb
      · rw [if_neg hlt] at hb
        cases ha
        cases hb
        linarith [not_lt.mp hlt]
  · intro a b ha hb
    rcases hmi : s.markIn with _ | a0
    · simp only [handleKeyDown, hmi] at ha hb
      simp at ha
    · simp only [handleKeyDown, hmi] at ha hb
      by_cases hgt : (jsRound (getTapeXAtPlayhead s / FRAME_PIXELS) : ℚ) * FRAME_PIXELS > a0
      · rw [if_pos hgt] at ha hb
        simp only at ha hb
        cases ha
        cases hb
        linarith
      · rw [if_neg hgt] at ha hb
        simp only at ha hb
        exact h a b (ha ▸ hmi ▸ rfl) hb

/-- C4 counterexample: pressing O and then I at the same (snapped) playhead
    position 120 leaves markIn = markOut = 120, so after this sequence of
    i/o events markOut is set but does not exceed markIn — the claimed
    invariant (markOut null or markOut > markIn) fails. -/
theorem C4_counterexample :
    (applyMarkEvents baseState [(280, false, 0), (280, true, 0)]).markIn = some 120 ∧
    (applyMarkEvents baseState [(280, false, 0), (280, true, 0)]).markOut = some 120 := by
  constructor <;>
    norm_num [applyMarkEvents, handleKeyDown, baseState, getTapeXAtPlayhead,
      jsRound, FRAME_PIXELS]

/-- C4 amended: after every sequence of handleKeyDown('i') /
    handleKeyDown('o') events (each issued at an arbitrary playhead
    position and time), the marks satisfy markOut = null or
    markOut ≥ markIn.  Mark-in clears an existing markOut only when it is
    strictly below the new markIn, so equality of the two marks can
    persist; mark-out is only accepted when no markIn exists or the
    snapped position strictly exceeds markIn. -/
theorem C4_amended_marks_invariant (s : EngineState)
    (evts : List (ℚ × Bool × ℚ)) (h : MarksInv s) :
    MarksInv (applyMarkEvents s evts) := by
  induction evts generalizing s with
  | nil => exact h
  | cons e rest ih =>
    have h1 : MarksInv (handleKeyDown { s with conveyorOffset := e.1 }
        (if e.2.1 then Key.i else Key.o) e.2.2).1 := by
      apply marksInv_handleKeyDown_io
      · cases e.2.1
        · exact Or.inr (by simp)
        · exact Or.inl (by simp)
      · exact h
    exact ih _ h1

/-- C4 witness: the O-then-I sequence at position 120 keeps markOut ≥
    markIn. -/
theorem C4_amended_marks_invariant_witness :
    MarksInv (applyMarkEvents baseState [(280, false, 0), (280, true, 0)]) :=
  C4_amended_marks_invariant baseState [(280, false, 0), (280, true, 0)]
    (fun a b ha _ => by simp [baseState] at ha)

/-! ### C5 -/

/-- C5: releasing L while K is held zeroes the speed; a release under
    200ms after the press places the playhead exactly one frame unit
    (FRAME_PIXELS) beyond the frame-grid position computed from the offset
    recorded at press time and increments the penalty count by one; a
    release at 200ms or later snaps the playhead to the nearest frame with
    no penalty.  J behaves symmetrically with the step direction
    reversed. -/
theorem C5_tap_step (s : EngineState) (now tL oL tJ oJ : ℚ)
    (hK : s.isHoldingK = true)
    (hL : s.inputL = some (tL, oL))
    (hJ : s.inputJ = some (tJ, oJ)) :
    ((handleKeyUp s Key.l now).1.currentSpeed = 0 ∧
     (now - tL < 200 →
        getTapeXAtPlayhead (handleKeyUp s Key.l now).1 =
          (jsRound ((s.width / 2 - oL) / FRAME_PIXELS) : ℚ) * FRAME_PIXELS + FRAME_PIXELS ∧
        (handleKeyUp s Key.l now).1.penaltyCount = s.penaltyCount + 1) ∧
     (200 ≤ now - tL →
        getTapeXAtPlayhead (handleKeyUp s Key.l now).1 =
          (jsRound (getTapeXAtPlayhead s / FRAME_PIXELS) : ℚ) * FRAME_PIXELS ∧
        (handleKeyUp s Key.l now).1.penaltyCount = s.penaltyCount)) ∧
    ((handleKeyUp s Key.j now).1.currentSpeed = 0 ∧
     (now - tJ < 200 →
        getTapeXAtPlayhead (handleKeyUp s Key.j now).1 =
          (jsRound ((s.width / 2 - oJ) / FRAME_PIXELS) : ℚ) * FRAME_PIXELS - FRAME_PIXELS ∧
        (handleKeyUp s Key.j now).1.penaltyCount = s.penaltyCount + 1) ∧
     (200 ≤ now - tJ →
        getTapeXAtPlayhead (handleKeyUp s Key.j now).1 =
          (jsRound (getTapeXAtPlayhead s / FRAME_PIXELS) : ℚ) * FRAME_PIXELS ∧
        (handleKeyUp s Key.j now).1.penaltyCount = s.penaltyCount)) := by
  constructor
  · simp only [handleKeyUp, hK, hL, eq_self_iff_true, if_true]
    by_cases ht : now - tL < 200
    · rw [if_pos ht]
      refine ⟨rfl, fun _ => ⟨?_, rfl⟩, fun h200 => absurd ht (not_lt.mpr h200)⟩
      dsimp only [registerBadHabit, getTapeXAtPlayhead]
      ring
    · rw [if_neg ht]
      refine ⟨rfl, fun hlt => absurd hlt ht, fun _ => ⟨?_, rfl⟩⟩
      dsimp only [snapToFrame, getTapeXAtPlayhead]
      ring
  · simp only [handleKeyUp, hK, hJ, eq_self_iff_true, if_true]
    by_cases ht : now - tJ < 200
    · rw [if_pos ht]
      refine ⟨rfl, fun _ => ⟨?_, rfl⟩, fun h200 => absurd ht (not_lt.mpr h200)⟩
      dsimp only [registerBadHabit, getTapeXAtPlayhead]
      ring
    · rw [if_neg ht]
      refine ⟨rfl, fun hlt => absurd hlt ht, fun _ => ⟨?_, rfl⟩⟩
      dsimp only [snapToFrame, getTapeXAtPlayhead]
      ring

/-- C5 witness: with K held and both press records at time 0, offset 100,
    a release at time 100 (a tap) increments the penalty count. -/
theorem C5_tap_step_witness :
    (handleKeyUp tapHoldState Key.l 100).1.penaltyCount =
      tapHoldState.penaltyCount + 1 :=
  ((C5_tap_step tapHoldState 100 0 100 0 100 rfl rfl rfl).1.2.1 (by norm_num)).2

/-! ### C6 -/

/-- C6: every successful extraction appends a SequenceClip of width equal
    to the marked duration and color equal to targetColor; the win signal
    fires exactly when the accumulated clip-width total reaches the
    1200px threshold (totals equal to it included); and any reported
    terminal score equals max(0, floor(10000 − 10×elapsedSeconds −
    50×penaltyCount)), which is non-negative. -/
theorem C6_success_clip_win_score (s : EngineState) (now a b : ℚ)
    (h1 : s.markIn = some a) (h2 : s.markOut = some b) (h3 : 0 < b - a)
    (hsuc : ExtractSucceeded s now) :
    (((performExtract s now).1.sequenceClips.map fun c => (c.width, c.color)) =
        (s.sequenceClips.map fun c => (c.width, c.color)) ++ [(b - a, s.targetColor)]) ∧
    (GEvent.win ∈ (performExtract s now).2 ↔
        WIN_PIXELS ≤ totalClipWidth s.sequenceClips + (b - a)) ∧
    (∀ v : ℤ, GEvent.finalScoreUpdate v ∈ (performExtract s now).2 →
        v = max 0 ⌊(10000 : ℚ) - (now - s.startTime) / 1000 * 10 -
              (s.penaltyCount : ℚ) * 50⌋ ∧
        0 ≤ v) := by
  have h5 := hsuc
  unfold ExtractSucceeded at h5
  unfold performExtract at h5 ⊢
  rw [h1, h2] at h5 ⊢
  simp only [if_neg (not_le.mpr h3)] at h5 ⊢
  by_cases h4 : overlapSegments s.sourceSegments a b = []
  · rw [if_pos h4] at h5
    simp at h5
  · rw [if_neg h4] at h5 ⊢
    by_cases hs : extractSuccess s.gameMode s.targetColor a b
        (overlapSegments s.sourceSegments a b) = true
    · rw [if_pos hs]
      refine ⟨?_, ?_, ?_⟩
      · split
        · simp
        · simp [snapToFrame]
      · split
        · next hw =>
          simp only [List.mem_cons, List.not_mem_nil, or_false]
          constructor
          · intro _
            simp only [totalClipWidth, List.map_append, List.sum_append,
              List.map_cons, List.map_nil, List.sum_cons, List.sum_nil] at hw
            simp only [totalClipWidth]
            linarith
          · intro _
            simp
        · next hw =>
          constructor
          · intro hmem
            simp at hmem
          · intro hge
            exfalso
            apply hw
            simp only [totalClipWidth, List.map_append, List.sum_append,
              List.map_cons, List.map_nil, List.sum_cons, List.sum_nil]
            simp only [totalClipWidth] at hge
            linarith
      · intro v hv
        split at hv
        · next hw =>
          simp only [List.mem_cons, List.not_mem_nil, or_false] at hv
          rcases hv with hv | hv | hv
          · exact absurd hv (by simp)
          · have hveq : v = calculateFinalScore s now := by
              injection hv
            constructor
            · rw [hveq]
              dsimp [calculateFinalScore]
            · rw [hveq]
              dsimp [calculateFinalScore]
              exact le_max_left 0 _
          · exact absurd hv (by simp)
        · next hw =>
          simp at hv
    · rw [if_neg hs] at h5
      simp at h5

/-- C6 witness: at 1000px accumulated, extracting [0, 300) crosses the
    1200px threshold and fires the win. -/
theorem C6_success_clip_win_score_witness :
    GEvent.win ∈ (performExtract winState 5000).2 ↔
      WIN_PIXELS ≤ totalClipWidth winState.sequenceClips + (300 - 0) :=
  (C6_success_clip_win_score winState 5000 0 300 rfl rfl (by norm_num)
    (by norm_num +decide [ExtractSucceeded, performExtract, winState, stdState,
      baseState, overlapSegments, stdTape, extractSuccess, totalClipWidth,
      COLOR_RED, COLOR_BLUE, WIN_PIXELS])).2.1

/-! ### C2 machinery: the contiguity invariant and coverage sums -/

theorem tilesFrom_cons (a : ℚ) (s : TimelineSegment) (l : List TimelineSegment) :
    tilesFrom a (s :: l) = true ↔
      s.x = a ∧ 0 < s.width ∧ tilesFrom (s.x + s.width) l = true := by
  simp [tilesFrom, and_assoc]

theorem tilesFrom_width_pos {a : ℚ} {l : List TimelineSegment}
    (h : tilesFrom a l = true) : ∀ s ∈ l, 0 < s.width := by
  induction l generalizing a with
  | nil => intro s hs; cases hs
  | cons hd tl ih =>
    rw [tilesFrom_cons] at h
    intro s hs
    rcases List.mem_cons.mp hs with rfl | hs
    · exact h.2.1
    · exact ih h.2.2 s hs

theorem totalWidth_nonneg {a : ℚ} {l : List TimelineSegment}
    (h : tilesFrom a l = true) : 0 ≤ totalWidth l := by
  have hw := tilesFrom_width_pos h
  apply List.sum_nonneg
  intro x hx
  obtain ⟨s, hs, rfl⟩ := List.mem_map.mp hx
  exact le_of_lt (hw s hs)

/-- Additivity of clamped interval overlap at an interior cut point. -/
theorem max0_interval_add {A B x m y : ℚ} (hab : A ≤ B) (hxm : x ≤ m) (hmy : m ≤ y) :
    max 0 (min B m - max A x) + max 0 (min B y - max A m) =
      max 0 (min B y - max A x) := by
  rcases le_total m A with hmA | hAm
  · have hbm : min B m = m := min_eq_right (le_trans hmA hab)
    have hAx : A ≤ max A x := le_max_left A x
    have h1 : max 0 (min B m - max A x) = 0 := by
      rw [max_eq_left]
      rw [hbm]
      linarith
    have h2 : max A m = A := max_eq_left hmA
    have h3 : max A x = A := max_eq_left (le_trans hxm hmA)
    rw [h1, h2, h3, zero_add]
  · rcases le_total B m with hBm | hmB
    · have hby : min B y ≤ B := min_le_left B y
      have hAm2 : m ≤ max A m := le_max_right A m
      have h2 : max 0 (min B y - max A m) = 0 := by
        rw [max_eq_left]
        linarith
      have h1 : min B m = B := min_eq_left hBm
      have h3 : min B y = B := min_eq_left (le_trans hBm hmy)
      rw [h1, h2, h3, add_zero]
    · have hAm' : max A m = m := max_eq_right hAm
      have hBm' : min B m = m := min_eq_right hmB
      have hmx : max A x ≤ m := max_le hAm hxm
      have hmy' : m ≤ min B y := le_min hmB hmy
      rw [hAm', hBm']
      rw [max_eq_right (by linarith : (0:ℚ) ≤ m - max A x)]
      rw [max_eq_right (by linarith : (0:ℚ) ≤ min B y - m)]
      rw [max_eq_right (by linarith : (0:ℚ) ≤ min B y - max A x)]
      ring

/-- A tape tiling [c, c + totalWidth) covers exactly the overlap of that
    interval with [A, B). -/
theorem tiles_cover_sum {A B : ℚ} (hab : A ≤ B) :
    ∀ (c : ℚ) (l : List TimelineSegment), tilesFrom c l = true →
      ((l.map fun s => max 0 (min B (s.x + s.width) - max A s.x)).sum)
        = max 0 (min B (c + totalWidth l) - max A c) := by
  intro c l
  induction l generalizing c with
  | nil =>
    intro _
    have h1 : min B c ≤ c := min_le_right B c
    have h2 : c ≤ max A c := le_max_right A c
    simp only [List.map_nil, List.sum_nil, totalWidth, add_zero]
    symm
    rw [max_eq_left]
    linarith
  | cons hd tl ih =>
    intro h
    rw [tilesFrom_cons] at h
    obtain ⟨hx, hw, htl⟩ := h
    have hT : 0 ≤ totalWidth tl := totalWidth_nonneg htl
    have ihs := ih (hd.x + hd.width) htl
    subst hx
    simp only [List.map_cons, List.sum_cons, ihs]
    have htotal : totalWidth (hd :: tl) = hd.width + totalWidth tl := by
      simp [totalWidth]
    rw [htotal]
    have hassoc : hd.x + (hd.width + totalWidth tl) = hd.x + hd.width + totalWidth tl := by
      ring
    rw [hassoc]
    exact max0_interval_add hab (by linarith) (by linarith)

theorem coverage_split (segs : List TimelineSegment) (t : String) (A B : ℚ) :
    targetCoverage segs t A B + offTargetCoverage segs t A B =
      ((segs.map fun s => max 0 (min B (s.x + s.width) - max A s.x)).sum) := by
  induction segs with
  | nil => simp [targetCoverage, offTargetCoverage]
  | cons hd tl ih =>
    simp only [targetCoverage, offTargetCoverage, List.map_cons, List.sum_cons] at ih ⊢
    by_cases h : hd.color = t
    · rw [if_pos h, if_neg (by simp [h])]
      linarith
    · rw [if_neg h, if_pos h]
      linarith

/-- The correct-color length computed inside performExtract over the
    filtered overlap set equals the spec-side target coverage over the
    whole tape. -/
theorem ccl_eq_targetCoverage (t : String) (A B : ℚ)
    (segs : List TimelineSegment) (hAB : A < B)
    (hw : ∀ s ∈ segs, 0 < s.width) :
    ((overlapSegments segs A B).map fun seg =>
        if seg.color == t then min B (seg.x + seg.width) - max A seg.x else 0).sum
      = targetCoverage segs t A B := by
  induction segs with
  | nil => simp [overlapSegments, targetCoverage]
  | cons hd tl ih =>
    have hwtl : ∀ s ∈ tl, 0 < s.width := fun s hs => hw s (List.mem_cons_of_mem _ hs)
    have ihtl := ih hwtl
    simp only [overlapSegments, List.filter_cons] at ihtl ⊢
    simp only [targetCoverage, List.map_cons, List.sum_cons]
    by_cases hov : hd.x < B ∧ A < hd.x + hd.width
    · rw [if_pos (by simp [hov.1, hov.2])]
      simp only [List.map_cons, List.sum_cons]
      have hpos : 0 < min B (hd.x + hd.width) - max A hd.x := by
        have hhd := hw hd (List.mem_cons_self hd tl)
        have : max A hd.x < min B (hd.x + hd.width) :=
          max_lt (lt_min hAB hov.2) (lt_min hov.1 (by linarith))
        linarith
      have hhead : (if hd.color == t then min B (hd.x + hd.width) - max A hd.x else 0) =
          (if hd.color = t then max 0 (min B (hd.x + hd.width) - max A hd.x) else 0) := by
        simp only [beq_iff_eq]
        split_ifs
        · rw [max_eq_right (le_of_lt hpos)]
        · rfl
      rw [hhead, ihtl]
      rfl
    · rw [if_neg (by
        simp only [Bool.and_eq_true, decide_eq_true_eq]
        exact fun hcon => hov hcon)]
      rw [ihtl]
      have hzero : (if hd.color = t then max 0 (min B (hd.x + hd.width) - max A hd.x) else 0)
          = 0 := by
        split_ifs
        · rw [max_eq_left]
          push_neg at hov
          rcases le_or_lt B hd.x with hc | hc
          · have h1 : min B (hd.x + hd.width) ≤ B := min_le_left _ _
            have h2 : hd.x ≤ max A hd.x := le_max_right A hd.x
            linarith
          · have h3 := hov hc
            have h1 : min B (hd.x + hd.width) ≤ hd.x + hd.width := min_le_right _ _
            have h2 : A ≤ max A hd.x := le_max_left A hd.x
            linarith
        · rfl
      rw [hzero, zero_add]
      rfl

/-- ExtractSucceeded in terms of the validation predicate. -/
theorem extractSucceeded_iff (s : EngineState) (now a b : ℚ)
    (h1 : s.markIn = some a) (h2 : s.markOut = some b) (h3 : 0 < b - a) :
    ExtractSucceeded s now ↔
      (overlapSegments s.sourceSegments a b ≠ [] ∧
       extractSuccess s.gameMode s.targetColor a b
         (overlapSegments s.sourceSegments a b) = true) := by
  unfold ExtractSucceeded performExtract
  rw [h1, h2]
  simp only [if_neg (not_le.mpr h3)]
  by_cases h4 : overlapSegments s.sourceSegments a b = []
  · rw [if_pos h4]
    simp [h4]
  · rw [if_neg h4]
    by_cases hs : extractSuccess s.gameMode s.targetColor a b
        (overlapSegments s.sourceSegments a b) = true
    · rw [if_pos hs]
      split
      · simp [h4, hs]
      · simp [snapToFrame, h4, hs]
    · rw [if_neg hs]
      simp [h4, hs]

/-! ### C2 -/

/-- C2: a STANDARD extraction attempt with both marks set and markOut >
    markIn succeeds iff the target-colored fraction of [markIn, markOut)
    is at least 95%; a range fully inside one target-colored segment
    always succeeds; and a range with more than 5% off-target coverage
    always fails (the tape satisfying the contiguity invariant). -/
theorem C2_standard_accuracy (s : EngineState) (now a b : ℚ)
    (h1 : s.markIn = some a) (h2 : s.markOut = some b) (h3 : a < b)
    (hmode : s.gameMode = GameMode.STANDARD)
    (htiles : tilesFrom 0 s.sourceSegments = true) :
    (ExtractSucceeded s now ↔
       95 / 100 * (b - a) ≤ targetCoverage s.sourceSegments s.targetColor a b) ∧
    (∀ m ∈ s.sourceSegments, m.color = s.targetColor → m.x ≤ a → b ≤ m.x + m.width →
       ExtractSucceeded s now) ∧
    (5 / 100 * (b - a) < offTargetCoverage s.sourceSegments s.targetColor a b →
       ¬ ExtractSucceeded s now) := by
  have hw := tilesFrom_width_pos htiles
  have h3' : 0 < b - a := by linarith
  have hccl := ccl_eq_targetCoverage s.targetColor a b s.sourceSegments h3 hw
  have hsucc : extractSuccess s.gameMode s.targetColor a b
      (overlapSegments s.sourceSegments a b) = true ↔
      95 / 100 * (b - a) ≤ targetCoverage s.sourceSegments s.targetColor a b := by
    rw [hmode]
    unfold extractSuccess
    rw [decide_eq_true_iff]
    rw [ge_iff_le, le_div_iff₀ h3', hccl]
  have hiff : ExtractSucceeded s now ↔
      95 / 100 * (b - a) ≤ targetCoverage s.sourceSegments s.targetColor a b := by
    rw [extractSucceeded_iff s now a b h1 h2 h3']
    constructor
    · intro h
      exact hsucc.mp h.2
    · intro h
      refine ⟨?_, hsucc.mpr h⟩
      intro hempty
      rw [hempty] at hccl
      simp at hccl
      rw [← hccl] at h
      nlinarith
  refine ⟨hiff, ?_, ?_⟩
  · intro m hm hcol hxa hbw
    apply hiff.mpr
    have hterm : (fun seg => if seg.color = s.targetColor then
        max 0 (min b (seg.x + seg.width) - max a seg.x) else 0) m = b - a := by
      show (if m.color = s.targetColor then
        max 0 (min b (m.x + m.width) - max a m.x) else 0) = b - a
      rw [if_pos hcol]
      rw [min_eq_left hbw, max_eq_left hxa]
      rw [max_eq_right (by linarith)]
    have hmem : (b - a) ∈ (s.sourceSegments.map fun seg =>
        if seg.color = s.targetColor then
          max 0 (min b (seg.x + seg.width) - max a seg.x) else 0) := by
      rw [← hterm]
      exact List.mem_map_of_mem _ hm
    have hnn : ∀ x ∈ (s.sourceSegments.map fun seg =>
        if seg.color = s.targetColor then
          max 0 (min b (seg.x + seg.width) - max a seg.x) else 0), 0 ≤ x := by
      intro x hx
      obtain ⟨seg, _, rfl⟩ := List.mem_map.mp hx
      split_ifs
      · exact le_max_left 0 _
      · exact le_refl 0
    have hle := List.single_le_sum hnn _ hmem
    unfold targetCoverage
    nlinarith
  · intro hoff hsucc2
    have hcov := hiff.mp hsucc2
    have htot := tiles_cover_sum (le_of_lt h3) 0 s.sourceSegments htiles
    have hsplit := coverage_split s.sourceSegments s.targetColor a b
    have hbound : ((s.sourceSegments.map fun seg =>
        max 0 (min b (seg.x + seg.width) - max a seg.x)).sum) ≤ b - a := by
      rw [htot]
      have h1' : min b (0 + totalWidth s.sourceSegments) ≤ b := min_le_left _ _
      have h2' : a ≤ max a 0 := le_max_left a 0
      rw [max_le_iff]
      constructor <;> linarith
    nlinarith

/-- C2 witness: on the example tape, STANDARD extraction of [0, 300) lies
    fully inside the RED segment and succeeds. -/
theorem C2_standard_accuracy_witness : ExtractSucceeded stdState 0 :=
  (C2_standard_accuracy stdState 0 0 300 rfl rfl (by norm_num) rfl
      (by norm_num [tilesFrom, stdState, baseState, stdTape])).2.1
    { id := "seg_0", x := 0, width := 300, color := COLOR_RED }
    (by simp [stdState, baseState, stdTape]) rfl (by norm_num) (by norm_num)

/-! ### C3 -/

/-- CAT_MODE validation characterised: the FIRST target-colored segment of
    the overlap set must be epsilon-contained in the range with at most
    60px of distance from each range edge to the corresponding segment
    edge. -/
theorem extractSuccess_cat_iff (t : String) (a b : ℚ)
    (aff : List TimelineSegment) :
    extractSuccess GameMode.CAT_MODE t a b aff = true ↔
      ∃ m, aff.find? (fun sg => sg.color == t) = some m ∧
        a ≤ m.x + 1/10 ∧ m.x + m.width - 1/10 ≤ b ∧
        max 0 (m.x - a) ≤ 60 ∧ max 0 (b - (m.x + m.width)) ≤ 60 := by
  unfold extractSuccess
  rcases hfind : aff.find? (fun sg => sg.color == t) with _ | m
  · simp [hfind]
  · rw [hfind]
    simp only [Option.some.injEq]
    constructor
    · intro hs
      refine ⟨m, rfl, ?_⟩
      split_ifs at hs with hcaught hsil
      simp only [Bool.and_eq_true, decide_eq_true_eq, ge_iff_le] at hcaught
      push_neg at hsil
      have h60 : (10 : ℚ) * FRAME_PIXELS = 60 := by norm_num [FRAME_PIXELS]
      rw [h60] at hsil
      exact ⟨hcaught.1, by linarith [hcaught.2], hsil.1, hsil.2⟩
    · rintro ⟨m', ⟨rfl, hca, hce, hsb, hsa⟩⟩
      rw [if_pos (by
        simp only [Bool.and_eq_true, decide_eq_true_eq, ge_iff_le]
        exact ⟨hca, by linarith⟩)]
      rw [if_neg (by
        push_neg
        rw [show (10 : ℚ) * FRAME_PIXELS = 60 from by norm_num [FRAME_PIXELS]]
        exact ⟨hsb, hsa⟩)]

/-- C3 counterexample: a reachable CAT_MODE tape RED[0,102) BLUE[102,108)
    RED[108,210) with marks [0, 162): TWO target-colored segments overlap
    the marked range, yet the extraction succeeds — the code only inspects
    the first target segment (Array.find) and never checks uniqueness, so
    "exactly one segment of targetColor must exist" is not required for
    success. -/
theorem C3_counterexample :
    ExtractSucceeded catTwoMeowState 0 ∧
    ((overlapSegments catTwoMeowState.sourceSegments 0 162).filter
        (fun sg => decide (sg.color = catTwoMeowState.targetColor))).length = 2 := by
  constructor
  · norm_num +decide [ExtractSucceeded, performExtract, catTwoMeowState, baseState,
      overlapSegments, extractSuccess, totalClipWidth, COLOR_RED, COLOR_BLUE,
      WIN_PIXELS, FRAME_PIXELS]
  · norm_num +decide [overlapSegments, catTwoMeowState, baseState, COLOR_RED, COLOR_BLUE]

/-- C3 amended: a CAT_MODE extraction attempt with both marks set and
    markOut > markIn succeeds iff the overlap set contains a target-colored
    segment, the FIRST such segment is fully contained in the range (0.1px
    epsilon on both edges) and the distances from the range edges to that
    segment's edges, each measured independently, do not exceed 60px
    (10 frame-units); uniqueness of the target segment is NOT required.
    On a tape whose target segment is {x:0, width:300}, marking [0, 360)
    succeeds (at the allowance boundary) and marking [0, 367) fails. -/
theorem C3_amended_cat_validation :
    (∀ (s : EngineState) (now a b : ℚ), s.markIn = some a → s.markOut = some b →
      0 < b - a → s.gameMode = GameMode.CAT_MODE →
      (ExtractSucceeded s now ↔
        ∃ m, (overlapSegments s.sourceSegments a b).find?
              (fun sg => sg.color == s.targetColor) = some m ∧
          a ≤ m.x + 1/10 ∧ m.x + m.width - 1/10 ≤ b ∧
          max 0 (m.x - a) ≤ 60 ∧ max 0 (b - (m.x + m.width)) ≤ 60)) ∧
    ExtractSucceeded catBoundaryState 0 ∧ ¬ ExtractSucceeded catOverState 0 := by
  refine ⟨?_, ?_, ?_⟩
  · intro s now a b h1 h2 h3 hmode
    rw [extractSucceeded_iff s now a b h1 h2 h3, hmode, extractSuccess_cat_iff]
    constructor
    · rintro ⟨_, hex⟩
      exact hex
    · intro hex
      refine ⟨?_, hex⟩
      obtain ⟨m, hfind, _⟩ := hex
      intro hemp
      rw [hemp] at hfind
      simp at hfind
  · norm_num +decide [ExtractSucceeded, performExtract, catBoundaryState, stdState,
      baseState, overlapSegments, stdTape, extractSuccess, totalClipWidth,
      COLOR_RED, COLOR_BLUE, WIN_PIXELS, FRAME_PIXELS]
  · norm_num +decide [ExtractSucceeded, performExtract, catOverState, stdState,
      baseState, overlapSegments, stdTape, extractSuccess, totalClipWidth,
      COLOR_RED, COLOR_BLUE, WIN_PIXELS, FRAME_PIXELS]

/-- C3 witness: the amended characterisation instantiated at the boundary
    example state. -/
theorem C3_amended_cat_validation_witness :
    ExtractSucceeded catBoundaryState 0 ↔
      ∃ m, (overlapSegments catBoundaryState.sourceSegments 0 360).find?
            (fun sg => sg.color == catBoundaryState.targetColor) = some m ∧
        (0 : ℚ) ≤ m.x + 1/10 ∧ m.x + m.width - 1/10 ≤ 360 ∧
        max 0 (m.x - 0) ≤ 60 ∧ max 0 (360 - (m.x + m.width)) ≤ 60 :=
  C3_amended_cat_validation.1 catBoundaryState 0 0 360 rfl rfl (by norm_num) rfl

/-! ### C8 -/

/-- Width bound for one generated segment: a draw in [0,1] yields a frame
    index between 17 and 50. -/
theorem jsRound_width_bounds (r : ℚ) (h0 : 0 ≤ r) (h1 : r ≤ 1) :
    17 ≤ jsRound ((r * (SEGMENT_MAX_WIDTH - SEGMENT_MIN_WIDTH) + SEGMENT_MIN_WIDTH)
        / FRAME_PIXELS) ∧
    jsRound ((r * (SEGMENT_MAX_WIDTH - SEGMENT_MIN_WIDTH) + SEGMENT_MIN_WIDTH)
        / FRAME_PIXELS) ≤ 50 := by
  unfold jsRound SEGMENT_MAX_WIDTH SEGMENT_MIN_WIDTH FRAME_PIXELS
  constructor
  · rw [Int.le_floor]
    push_cast
    nlinarith
  · have hlt : ((r * (300 - 100) + 100) / 6 + 1/2 : ℚ) < 51 := by nlinarith
    have hfl : ⌊((r * (300 - 100) + 100) / 6 + 1/2 : ℚ)⌋ < 51 := by
      rw [Int.floor_lt]
      push_cast
      linarith
    omega

/-- Invariant of the tape-generator loop. -/
theorem genSegsAux_spec (wd : ℕ → ℚ) (cd : ℕ → List String)
    (hwd : ∀ i, 0 ≤ wd i ∧ wd i ≤ 1) :
    ∀ (n i : ℕ) (cx : ℚ) (prev : Option String) (segs : List TimelineSegment),
      genSegsAux wd cd i n cx prev = some segs →
      segs.length = n ∧
      tilesFrom cx segs = true ∧
      (∀ s ∈ segs, (∃ k : ℤ, s.width = (k : ℚ) * FRAME_PIXELS) ∧
        102 ≤ s.width ∧ s.width ≤ 300) ∧
      List.Chain' (fun p q => p.color ≠ q.color) segs ∧
      (∀ p, prev = some p → 0 < i → ∀ hne : segs ≠ [], (segs.head hne).color ≠ p) := by
  intro n
  induction n with
  | zero =>
    intro i cx prev segs hgen
    unfold genSegsAux at hgen
    cases hgen
    refine ⟨rfl, rfl, by simp, by simp, ?_⟩
    intro p _ _ hne
    exact absurd rfl hne
  | succ n ih =>
    intro i cx prev segs hgen
    unfold genSegsAux at hgen
    rcases hfind : (cd i).find?
        (fun c => !(decide (0 < i) && decide (some c = prev))) with _ | color
    · rw [hfind] at hgen
      cases hgen
    · rw [hfind] at hgen
      dsimp only at hgen
      rcases hrec : genSegsAux wd cd (i + 1) n
          (cx + (jsRound ((wd i * (SEGMENT_MAX_WIDTH - SEGMENT_MIN_WIDTH)
            + SEGMENT_MIN_WIDTH) / FRAME_PIXELS) : ℚ) * FRAME_PIXELS)
          (some color) with _ | rest
      · rw [hrec] at hgen
        cases hgen
      · rw [hrec] at hgen
        cases hgen
        obtain ⟨hlen, htiles, hbounds, hchain, hhead⟩ :=
          ih (i + 1) _ (some color) rest hrec
        have hk := jsRound_width_bounds (wd i) (hwd i).1 (hwd i).2
        have hwfp : (102 : ℚ) ≤ (jsRound ((wd i * (SEGMENT_MAX_WIDTH -
            SEGMENT_MIN_WIDTH) + SEGMENT_MIN_WIDTH) / FRAME_PIXELS) : ℚ)
              * FRAME_PIXELS ∧
            (jsRound ((wd i * (SEGMENT_MAX_WIDTH - SEGMENT_MIN_WIDTH)
              + SEGMENT_MIN_WIDTH) / FRAME_PIXELS) : ℚ) * FRAME_PIXELS ≤ 300 := by
          have h17 : (17 : ℚ) ≤ (jsRound ((wd i * (SEGMENT_MAX_WIDTH -
              SEGMENT_MIN_WIDTH) + SEGMENT_MIN_WIDTH) / FRAME_PIXELS) : ℚ) := by
            exact_mod_cast hk.1
          have h50 : (jsRound ((wd i * (SEGMENT_MAX_WIDTH - SEGMENT_MIN_WIDTH)
              + SEGMENT_MIN_WIDTH) / FRAME_PIXELS) : ℚ) ≤ 50 := by
            exact_mod_cast hk.2
          norm_num [FRAME_PIXELS] at h17 h50 ⊢
          constructor <;> linarith

        refine ⟨by simp [hlen], ?_, ?_, ?_, ?_⟩
        · rw [tilesFrom_cons]
          exact ⟨rfl, by linarith [hwfp.1], htiles⟩
        · intro s hs
          rcases List.mem_cons.mp hs with rfl | hs
          · exact ⟨⟨_, rfl⟩, hwfp.1, hwfp.2⟩
          · exact hbounds s hs
        · rw [List.chain'_cons']
          refine ⟨?_, hchain⟩
          intro q hq
          rcases rest with _ | ⟨r0, rtl⟩
          · cases hq
          · simp only [List.head?_cons, Option.mem_def, Option.some.injEq] at hq
            subst hq
            have := hhead color rfl (Nat.succ_pos i) (by simp)
            simp only [List.head_cons] at this
            exact fun hc => this hc.symm
        · intro p hprev hi hne
          simp only [List.head_cons]
          have hpred := List.find?_some hfind
          simp only [Bool.not_eq_true', Bool.and_eq_false_iff,
            decide_eq_false_iff_not, decide_eq_true_eq] at hpred
          rcases hpred with hip | hcp
          · exact absurd hi hip
          · intro hcolp
            apply hcp
            rw [hprev, hcolp]

/-- C8: every tape the generator returns has exactly 200 segments, tiles
    the half-line from position 0 contiguously, every width is a multiple
    of FRAME_PIXELS within [102, 300] (the rounding of a draw from
    [MIN_WIDTH, MAX_WIDTH]), and no two adjacent segments share a color —
    for every outcome of the random draws for which the color retry loop
    terminates. -/
theorem C8_generator_invariants (wd : ℕ → ℚ) (cd : ℕ → List String)
    (segs : List TimelineSegment)
    (hwd : ∀ i, 0 ≤ wd i ∧ wd i ≤ 1)
    (hgen : generateSourceTape wd cd = some segs) :
    segs.length = 200 ∧
    tilesFrom 0 segs = true ∧
    (∀ s ∈ segs, (∃ k : ℤ, s.width = (k : ℚ) * FRAME_PIXELS) ∧
      102 ≤ s.width ∧ s.width ≤ 300) ∧
    List.Chain' (fun p q => p.color ≠ q.color) segs := by
  obtain ⟨h1, h2, h3, h4, _⟩ := genSegsAux_spec wd cd hwd 200 0 0 none segs hgen
  exact ⟨h1, h2, h3, h4⟩

/-- With the constant RED-then-BLUE draw stream the retry loop always
    finds an admissible color. -/
theorem find_redblue (i : ℕ) (prev : Option String) :
    ∃ c, ([COLOR_RED, COLOR_BLUE].find?
      (fun c => !(decide (0 < i) && decide (some c = prev)))) = some c := by
  by_cases h : (!(decide (0 < i) && decide (some COLOR_RED = prev))) = true
  · exact ⟨COLOR_RED, by simp only [List.find?, h]⟩
  · refine ⟨COLOR_BLUE, ?_⟩
    simp only [Bool.not_eq_true', Bool.and_eq_true, decide_eq_true_eq,
      Bool.not_eq_false] at h
    obtain ⟨hi, hp⟩ := h
    have hblue : (!(decide (0 < i) && decide (some COLOR_BLUE = prev))) = true := by
      simp only [Bool.not_eq_true', Bool.and_eq_false_iff,
        decide_eq_false_iff_not, decide_eq_true_eq]
      right
      rw [← hp]
      intro hcon
      have : COLOR_BLUE = COLOR_RED := by
        injection hcon
      exact absurd this (by decide)
    have hred : (!(decide (0 < i) && decide (some COLOR_RED = prev))) = false := by
      simp only [Bool.not_eq_false', Bool.and_eq_true, decide_eq_true_eq]
      exact ⟨hi, hp⟩
    simp only [List.find?, hred, hblue]

/-- The demo generator run terminates. -/
theorem genSegsAux_redblue_isSome (wd : ℕ → ℚ) :
    ∀ (n i : ℕ) (cx : ℚ) (prev : Option String),
      (genSegsAux wd (fun _ => [COLOR_RED, COLOR_BLUE]) i n cx prev).isSome := by
  intro n
  induction n with
  | zero =>
    intro i cx prev
    simp [genSegsAux]
  | succ n ih =>
    intro i cx prev
    unfold genSegsAux
    obtain ⟨c, hc⟩ := find_redblue i prev
    simp only [hc]
    obtain ⟨rest, hrest⟩ := Option.isSome_iff_exists.mp
      (ih (i + 1)
        (cx + (jsRound ((wd i * (SEGMENT_MAX_WIDTH - SEGMENT_MIN_WIDTH)
          + SEGMENT_MIN_WIDTH) / FRAME_PIXELS) : ℚ) * FRAME_PIXELS)
        (some c))
    simp only [hrest]
    simp

/-- C8 witness: the concrete demo run produces a 200-segment contiguous
    tape. -/
theorem C8_generator_invariants_witness :
    demoTape.length = 200 ∧ tilesFrom 0 demoTape = true := by
  have hsome := genSegsAux_redblue_isSome (fun _ => 1/2) 200 0 0 none
  obtain ⟨segs, hsegs⟩ := Option.isSome_iff_exists.mp hsome
  have hgen : generateSourceTape (fun _ => 1/2) (fun _ => [COLOR_RED, COLOR_BLUE])
      = some demoTape := by
    unfold demoTape generateSourceTape
    rw [hsegs]
    rfl
  have h := C8_generator_invariants (fun _ => 1/2) (fun _ => [COLOR_RED, COLOR_BLUE])
    demoTape (fun i => by norm_num) hgen
  exact ⟨h.1, h.2.1⟩

/-! ### C1 machinery -/

theorem totalWidth_nil : totalWidth [] = 0 := rfl

theorem totalWidth_cons (s : TimelineSegment) (l : List TimelineSegment) :
    totalWidth (s :: l) = s.width + totalWidth l := by
  simp [totalWidth]

theorem totalWidth_append (l1 l2 : List TimelineSegment) :
    totalWidth (l1 ++ l2) = totalWidth l1 + totalWidth l2 := by
  simp [totalWidth]

theorem ripplePass1_cons_keep {st : ℚ} {hd : TimelineSegment}
    {tl : List TimelineSegment} (h : hd.x + hd.width ≤ st) :
    ripplePass1 st (hd :: tl) = hd :: ripplePass1 st tl := by
  unfold ripplePass1
  rw [List.filterMap_cons, if_pos h]

theorem ripplePass1_cons_trunc {st : ℚ} {hd : TimelineSegment}
    {tl : List TimelineSegment} (h1 : ¬ hd.x + hd.width ≤ st) (h2 : hd.x < st) :
    ripplePass1 st (hd :: tl) =
      ({ hd with width := st - hd.x } : TimelineSegment) :: ripplePass1 st tl := by
  unfold ripplePass1
  rw [List.filterMap_cons, if_neg h1, if_pos h2]

theorem ripplePass1_cons_drop {st : ℚ} {hd : TimelineSegment}
    {tl : List TimelineSegment} (h1 : ¬ hd.x + hd.width ≤ st) (h2 : ¬ hd.x < st) :
    ripplePass1 st (hd :: tl) = ripplePass1 st tl := by
  unfold ripplePass1
  rw [List.filterMap_cons, if_neg h1, if_neg h2]

theorem ripplePass2_cons_shift {st e : ℚ} {hd : TimelineSegment}
    {tl : List TimelineSegment} (h : e ≤ hd.x) :
    ripplePass2 st e (hd :: tl) =
      ({ hd with x := hd.x - (e - st) } : TimelineSegment) :: ripplePass2 st e tl := by
  unfold ripplePass2
  rw [List.filterMap_cons, if_pos h]

theorem ripplePass2_cons_trunc {st e : ℚ} {hd : TimelineSegment}
    {tl : List TimelineSegment} (h1 : ¬ e ≤ hd.x) (h2 : e < hd.x + hd.width) :
    ripplePass2 st e (hd :: tl) =
      ({ hd with x := e - (e - st), width := hd.x + hd.width - e } : TimelineSegment)
        :: ripplePass2 st e tl := by
  unfold ripplePass2
  rw [List.filterMap_cons, if_neg h1, if_pos h2]

theorem ripplePass2_cons_drop {st e : ℚ} {hd : TimelineSegment}
    {tl : List TimelineSegment} (h1 : ¬ e ≤ hd.x) (h2 : ¬ e < hd.x + hd.width) :
    ripplePass2 st e (hd :: tl) = ripplePass2 st e tl := by
  unfold ripplePass2
  rw [List.filterMap_cons, if_neg h1, if_neg h2]

theorem ripplePass1_nil {st c : ℚ} {l : List TimelineSegment}
    (h : tilesFrom c l = true) (hc : st ≤ c) : ripplePass1 st l = [] := by
  induction l generalizing c with
  | nil => rfl
  | cons hd tl ih =>
    rw [tilesFrom_cons] at h
    obtain ⟨hx, hw, htl⟩ := h
    rw [ripplePass1_cons_drop (by rw [hx]; intro hcon; linarith) (by rw [hx]; linarith)]
    exact ih htl (by rw [hx]; linarith)

theorem ripplePass1_tiles {st a : ℚ} {l : List TimelineSegment}
    (h : tilesFrom a l = true) (ha : a ≤ st) :
    tilesFrom a (ripplePass1 st l) = true ∧
    totalWidth (ripplePass1 st l) = min st (a + totalWidth l) - a := by
  induction l generalizing a with
  | nil =>
    refine ⟨rfl, ?_⟩
    show totalWidth [] = min st (a + totalWidth []) - a
    rw [totalWidth_nil, add_zero, min_eq_right ha]
    ring
  | cons hd tl ih =>
    rw [tilesFrom_cons] at h
    obtain ⟨hx, hw, htl⟩ := h
    subst hx
    rcases le_or_lt (hd.x + hd.width) st with hcase | hcase
    · obtain ⟨ih1, ih2⟩ := ih htl hcase
      rw [ripplePass1_cons_keep hcase]
      constructor
      · rw [tilesFrom_cons]
        exact ⟨rfl, hw, ih1⟩
      · rw [totalWidth_cons, totalWidth_cons, ih2]
        have hassoc : hd.x + (hd.width + totalWidth tl) =
            hd.x + hd.width + totalWidth tl := by ring
        rw [hassoc]
        ring
    · have hnil : ripplePass1 st tl = [] := ripplePass1_nil htl (by linarith)
      have hT : 0 ≤ totalWidth tl := totalWidth_nonneg htl
      rcases lt_or_le hd.x st with hx2 | hx2
      · rw [ripplePass1_cons_trunc (by linarith) hx2, hnil]
        constructor
        · rw [tilesFrom_cons]
          dsimp only
          exact ⟨rfl, by linarith, rfl⟩
        · rw [totalWidth_cons, totalWidth_nil, totalWidth_cons]
          dsimp only
          rw [min_eq_left (by linarith)]
          ring
      · have hxeq : hd.x = st := le_antisymm ha hx2
        rw [ripplePass1_cons_drop (by linarith) (by linarith), hnil]
        refine ⟨rfl, ?_⟩
        rw [totalWidth_nil, totalWidth_cons, min_eq_left (by linarith)]
        linarith

theorem ripplePass2_shift {st e c : ℚ} {l : List TimelineSegment}
    (h : tilesFrom c l = true) (hc : e ≤ c) :
    tilesFrom (c - (e - st)) (ripplePass2 st e l) = true ∧
    totalWidth (ripplePass2 st e l) = totalWidth l := by
  induction l generalizing c with
  | nil => exact ⟨rfl, rfl⟩
  | cons hd tl ih =>
    rw [tilesFrom_cons] at h
    obtain ⟨hx, hw, htl⟩ := h
    subst hx
    obtain ⟨ih1, ih2⟩ := ih htl (by linarith)
    rw [ripplePass2_cons_shift hc]
    constructor
    · rw [tilesFrom_cons]
      dsimp only
      refine ⟨rfl, hw, ?_⟩
      have harg : hd.x - (e - st) + hd.width = hd.x + hd.width - (e - st) := by ring
      rw [harg]
      exact ih1
    · rw [totalWidth_cons, totalWidth_cons, ih2]

theorem ripplePass2_tiles {st e c : ℚ} {l : List TimelineSegment}
    (h : tilesFrom c l = true) (hce : c ≤ e) :
    tilesFrom st (ripplePass2 st e l) = true ∧
    totalWidth (ripplePass2 st e l) = max 0 (c + totalWidth l - e) := by
  induction l generalizing c with
  | nil =>
    refine ⟨rfl, ?_⟩
    show totalWidth [] = max 0 (c + totalWidth [] - e)
    rw [totalWidth_nil, add_zero, max_eq_left (by linarith)]
  | cons hd tl ih =>
    rw [tilesFrom_cons] at h
    obtain ⟨hx, hw, htl⟩ := h
    subst hx
    have hT : 0 ≤ totalWidth tl := totalWidth_nonneg htl
    rcases eq_or_lt_of_le hce with heq | hlt
    · have hfull : tilesFrom hd.x (hd :: tl) = true := by
        rw [tilesFrom_cons]
        exact ⟨rfl, hw, htl⟩
      obtain ⟨sh1, sh2⟩ := @ripplePass2_shift st e _ _ hfull (le_of_eq heq.symm)
      constructor
      · have harg : hd.x - (e - st) = st := by
          rw [heq]
          ring
        rw [harg] at sh1
        exact sh1
      · rw [sh2, totalWidth_cons, ← heq]
        rw [max_eq_right (by linarith)]
        ring
    · rcases le_or_lt (hd.x + hd.width) e with hcase | hcase
      · rw [ripplePass2_cons_drop (by linarith) (by linarith)]
        obtain ⟨ih1, ih2⟩ := ih htl hcase
        refine ⟨ih1, ?_⟩
        rw [totalWidth_cons, ih2]
        have hassoc : hd.x + (hd.width + totalWidth tl) - e =
            hd.x + hd.width + totalWidth tl - e := by ring
        rw [hassoc]
      · rw [ripplePass2_cons_trunc (by linarith) hcase]
        obtain ⟨sh1, sh2⟩ := @ripplePass2_shift st e _ _ htl (by linarith)
        constructor
        · rw [tilesFrom_cons]
          dsimp only
          refine ⟨by ring, by linarith, ?_⟩
          have harg : e - (e - st) + (hd.x + hd.width - e) =
              hd.x + hd.width - (e - st) := by ring
          rw [harg]
          exact sh1
        · rw [totalWidth_cons, sh2]
          dsimp only
          rw [totalWidth_cons]
          rw [max_eq_right (by linarith)]
          ring

theorem tilesFrom_append {a : ℚ} {l1 l2 : List TimelineSegment}
    (h1 : tilesFrom a l1 = true) (h2 : tilesFrom (a + totalWidth l1) l2 = true) :
    tilesFrom a (l1 ++ l2) = true := by
  induction l1 generalizing a with
  | nil =>
    rw [totalWidth_nil, add_zero] at h2
    simpa using h2
  | cons hd tl ih =>
    rw [tilesFrom_cons] at h1
    obtain ⟨hx, hw, htl⟩ := h1
    subst hx
    rw [List.cons_append, tilesFrom_cons]
    refine ⟨rfl, hw, ?_⟩
    apply ih htl
    have hassoc : hd.x + hd.width + totalWidth tl = hd.x + totalWidth (hd :: tl) := by
      rw [totalWidth_cons]
      ring
    rw [hassoc]
    exact h2

/-- Colors of the p-filtered list embed in order into the colors of the
    f-filterMapped list when f keeps every p-element's color. -/
theorem filter_color_sublist (p : TimelineSegment → Bool)
    (f : TimelineSegment → Option TimelineSegment) (l : List TimelineSegment)
    (hf : ∀ x ∈ l, p x = true → ∃ y, f x = some y ∧ y.color = x.color) :
    List.Sublist ((l.filter p).map (fun s => s.color))
      ((l.filterMap f).map (fun s => s.color)) := by
  induction l with
  | nil => simp
  | cons hd tl ih =>
    have htl := ih (fun x hx hp => hf x (List.mem_cons_of_mem _ hx) hp)
    rw [List.filter_cons, List.filterMap_cons]
    by_cases hp : p hd = true
    · obtain ⟨y, hy, hcol⟩ := hf hd (List.mem_cons_self _ _) hp
      rw [if_pos hp, hy]
      simp only [List.map_cons]
      rw [← hcol]
      exact List.Sublist.cons₂ _ htl
    · rw [if_neg hp]
      cases hfx : f hd with
      | none => exact htl
      | some y =>
        simp only [List.map_cons]
        exact List.Sublist.cons _ htl

/-! ### C1 -/

/-- C1 counterexample: a successful CAT_MODE extraction whose marked range
    [240, 360) extends past the end of the tape (total width 300).  The
    ripple delete leaves 240px of tape, not 300 − 120 = 180: total
    remaining length does NOT equal original length minus the extracted
    duration when the range is not contained in the tape. -/
theorem C1_counterexample :
    ExtractSucceeded ripplePastEndState 0 ∧
    totalWidth (performExtract ripplePastEndState 0).1.sourceSegments ≠
      totalWidth ripplePastEndState.sourceSegments - (360 - 240) := by
  constructor <;>
    norm_num +decide [ExtractSucceeded, performExtract, ripplePastEndState, baseState,
      overlapSegments, extractSuccess, totalWidth, totalClipWidth, rippleDelete,
      ripplePass1, ripplePass2, List.filterMap_cons, snapToFrame, getTapeXAtPlayhead,
      COLOR_RED, COLOR_BLUE, WIN_PIXELS, FRAME_PIXELS]

/-- C1 amended: for a tape satisfying the contiguity invariant (tiling
    [0, totalWidth)) and a removed interval [start, end) with
    0 ≤ start < end ≤ totalWidth, the ripple delete keeps every segment
    fully before start unchanged, truncates a segment straddling start to
    end at start, shifts every segment fully after end left by
    (end − start), truncates a segment straddling end to start at the
    former start position, yields a contiguous gap-free tape starting at 0,
    removes exactly (end − start) of total width, and preserves the
    relative color order of the untouched segments. -/
theorem C1_amended_rippleDelete (segs : List TimelineSegment) (start end_ : ℚ)
    (htiles : tilesFrom 0 segs = true) (h0 : 0 ≤ start) (hse : start < end_)
    (hend : end_ ≤ totalWidth segs) :
    (∀ s ∈ segs, s.x + s.width ≤ start → s ∈ rippleDelete segs start end_) ∧
    (∀ s ∈ segs, s.x < start → start < s.x + s.width →
      ({ s with width := start - s.x } : TimelineSegment) ∈ rippleDelete segs start end_) ∧
    (∀ s ∈ segs, end_ ≤ s.x →
      ({ s with x := s.x - (end_ - start) } : TimelineSegment) ∈
        rippleDelete segs start end_) ∧
    (∀ s ∈ segs, start ≤ s.x → s.x < end_ → end_ < s.x + s.width →
      ({ s with x := start, width := s.x + s.width - end_ } : TimelineSegment) ∈
        rippleDelete segs start end_) ∧
    tilesFrom 0 (rippleDelete segs start end_) = true ∧
    totalWidth (rippleDelete segs start end_) = totalWidth segs - (end_ - start) ∧
    List.Sublist
      ((((segs.filter fun s => decide (s.x + s.width ≤ start)) ++
         (segs.filter fun s => decide (end_ ≤ s.x))).map fun s => s.color))
      ((rippleDelete segs start end_).map fun s => s.color) := by
  have hp1 := @ripplePass1_tiles start 0 segs htiles h0
  have hp2 := @ripplePass2_tiles start end_ 0 segs htiles (by linarith)
  have htp1 : totalWidth (ripplePass1 start segs) = start := by
    rw [hp1.2, zero_add, min_eq_left (by linarith)]
    ring
  have htp2 : totalWidth (ripplePass2 start end_ segs) = totalWidth segs - end_ := by
    rw [hp2.2, zero_add, max_eq_right (by linarith)]
  refine ⟨?_, ?_, ?_, ?_, ?_, ?_, ?_⟩
  · intro s hs hcond
    apply List.mem_append_left
    unfold ripplePass1
    exact List.mem_filterMap.mpr ⟨s, hs, by rw [if_pos hcond]⟩
  · intro s hs hc1 hc2
    apply List.mem_append_left
    unfold ripplePass1
    exact List.mem_filterMap.mpr ⟨s, hs, by rw [if_neg (by linarith), if_pos hc1]⟩
  · intro s hs hcond
    apply List.mem_append_right
    unfold ripplePass2
    exact List.mem_filterMap.mpr ⟨s, hs, by rw [if_pos hcond]⟩
  · intro s hs hc1 hc2 hc3
    apply List.mem_append_right
    unfold ripplePass2
    refine List.mem_filterMap.mpr ⟨s, hs, ?_⟩
    rw [if_neg (by linarith), if_pos hc3]
    have harg : end_ - (end_ - start) = start := by ring
    rw [harg]
  · apply tilesFrom_append hp1.1
    rw [htp1, zero_add]
    exact hp2.1
  · unfold rippleDelete
    rw [totalWidth_append, htp1, htp2]
    ring
  · unfold rippleDelete
    rw [List.map_append, List.map_append]
    apply List.Sublist.append
    · apply filter_color_sublist
      intro x _ hp
      simp only [decide_eq_true_eq] at hp
      exact ⟨x, by rw [if_pos hp], rfl⟩
    · apply filter_color_sublist
      intro x _ hp
      simp only [decide_eq_true_eq] at hp
      exact ⟨{ x with x := x.x - (end_ - start) }, by rw [if_pos hp], rfl⟩

/-- C1 witness: removing [60, 120) from the example tape keeps it
    contiguous and shortens it by exactly 60px. -/
theorem C1_amended_rippleDelete_witness :
    tilesFrom 0 (rippleDelete stdTape 60 120) = true ∧
    totalWidth (rippleDelete stdTape 60 120) = totalWidth stdTape - (120 - 60) :=
  ⟨(C1_amended_rippleDelete stdTape 60 120
      (by norm_num [tilesFrom, stdTape]) (by norm_num) (by norm_num)
      (by norm_num [totalWidth, stdTape])).2.2.2.2.1,
   (C1_amended_rippleDelete stdTape 60 120
      (by norm_num [tilesFrom, stdTape]) (by norm_num) (by norm_num)
      (by norm_num [totalWidth, stdTape])).2.2.2.2.2.1⟩

end JKL
